/-
Verification development for the AutoCodeforge build-fix loop.

Shallow embedding of the core of the repository:
  * file_manager.py   — sandboxed path resolution and file actions
  * result_analyzer.py — heuristic outcome classification
  * main.py           — response parsing, action execution, cycle engine

Text is modelled as List Char.  Filesystem paths are modelled as lists of
path components (the operating system resolves "/" and "\\" separators and
".." segments when a file is opened, which normComps mirrors); the
filesystem itself is a flat association list from absolute, normalised
component paths to file contents.
-/
import Mathlib

abbrev Str := List Char

/-- Apostrophe character (kept out of literals). -/
def squote : Char := Char.ofNat 39

/-- Double-quote character. -/
def dq : Char := Char.ofNat 34

/-- Opening curly brace character. -/
def lbrace : Char := Char.ofNat 123

/-- Closing curly brace character. -/
def rbrace : Char := Char.ofNat 125

/-- Backslash character. -/
def bslash : Char := Char.ofNat 92

/-- Python str.strip default whitespace (ASCII part). -/
def isPyWs (c : Char) : Bool :=
  c = ' ' || c = '\t' || c = '\n' || c = '\r' || c = Char.ofNat 11 || c = Char.ofNat 12

/-- Python str.strip(): drop whitespace from both ends. -/
def pyStrip (s : Str) : Str :=
  ((s.dropWhile isPyWs).reverse.dropWhile isPyWs).reverse

def splitOnPredAux (p : Char → Bool) : Str → Str → List Str
  | [], cur => [cur.reverse]
  | c :: cs, cur =>
    if p c then cur.reverse :: splitOnPredAux p cs []
    else splitOnPredAux p cs (c :: cur)

/-- Python str.split(sep) for a single-character class of separators. -/
def splitOnPred (p : Char → Bool) (s : Str) : List Str :=
  splitOnPredAux p s []

/-- Python sep.join(parts). -/
def joinSep (sep : Str) : List Str → Str
  | [] => []
  | [x] => x
  | x :: y :: rest => x ++ sep ++ joinSep sep (y :: rest)

/-- Python str.lower (ASCII fragment, which is all the classifier uses). -/
def lowerStr (s : Str) : Str := s.map Char.toLower

/-- Python substring test (needle in hay). -/
def containsSub (needle : Str) : Str → Bool
  | [] => needle.isEmpty
  | c :: rest => needle.isPrefixOf (c :: rest) || containsSub needle rest

/- ===================== file_manager.py ===================== -/

/-- Flat filesystem: absolute normalised component path ↦ file content. -/
abbrev FS := List (List Str × Str)

def fsGet (fs : FS) (k : List Str) : Option Str :=
  match fs with
  | [] => none
  | (k2, v) :: rest => if k2 = k then some v else fsGet rest k

def fsHas (fs : FS) (k : List Str) : Bool := (fsGet fs k).isSome

def fsErase (fs : FS) (k : List Str) : FS :=
  fs.filter (fun p => p.1 ≠ k)

def fsSet (fs : FS) (k : List Str) (v : Str) : FS :=
  (k, v) :: fsErase fs k

/-- Split a relative path string on the separators os.path.normpath accepts. -/
def splitPath (s : Str) : List Str :=
  splitOnPred (fun c => c = '/' || c = Char.ofNat 92) s

/-- os.path.normpath on an absolute component list: drop empty and "."
components, resolve ".." against the stack (at the root it is dropped). -/
def normCompsAux : List Str → List Str → List Str
  | acc, [] => acc.reverse
  | acc, c :: cs =>
    if c = [] ∨ c = ['.'] then normCompsAux acc cs
    else if c = ['.', '.'] then
      match acc with
      | [] => normCompsAux [] cs
      | _ :: acc2 => normCompsAux acc2 cs
    else normCompsAux (c :: acc) cs

def normComps (cs : List Str) : List Str := normCompsAux [] cs

/-- Render an absolute component path the way the source keeps base_dir and
normalized_path as strings (separator-joined, no trailing separator). -/
def renderAbs (cs : List Str) : Str :=
  cs.foldl (fun acc comp => acc ++ '/' :: comp) []

/-- FileManager.get_full_path: join the relative path onto the project root,
normalise, and run the string-prefix security check of the source
(`normalized_path.startswith(base_dir)`); on failure raise ValueError. -/
def get_full_path (base : List Str) (rel : Str) : Except Str (List Str) :=
  let full := base ++ splitPath rel
  let normalized := normComps full
  if (renderAbs base).isPrefixOf (renderAbs normalized) then Except.ok full
  else Except.error ("Path traversal detected: ".toList ++ rel)

/-- Whether an absolute normalised path lies under the given root. -/
def isDescendant (root p : List Str) : Bool := root.isPrefixOf p

/-- FileManager.write_file: resolve the path (ValueError propagates), create
parent directories (implicit in the flat model) and write the full content;
the OS resolves ".." at open time, hence the normComps key. -/
def write_file (base : List Str) (fs : FS) (rel content : Str) : Except Str FS :=
  match get_full_path base rel with
  | Except.error e => Except.error e
  | Except.ok full => Except.ok (fsSet fs (normComps full) content)

/-- FileManager.delete_file: resolve the path (ValueError propagates); if the
file exists remove it, otherwise log a warning and change nothing. -/
def delete_file (base : List Str) (fs : FS) (rel : Str) : Except Str FS :=
  match get_full_path base rel with
  | Except.error e => Except.error e
  | Except.ok full =>
    if fsHas fs (normComps full) then Except.ok (fsErase fs (normComps full))
    else Except.ok fs

/- ===================== JSON (json.loads of the Python stdlib) ===================== -/

/-- JSON values.  Numbers keep their lexeme: no claim depends on numeric
semantics, only on which texts decode. -/
inductive Json where
  | null : Json
  | bool (b : Bool) : Json
  | num (lexeme : Str) : Json
  | str (s : Str) : Json
  | arr (elems : List Json) : Json
  | obj (members : List (Str × Json)) : Json

/-- JSON whitespace accepted by the Python decoder. -/
def isJsonWs (c : Char) : Bool :=
  c = ' ' || c = '\t' || c = '\n' || c = '\r'

def skipWs (s : Str) : Str := s.dropWhile isJsonWs

def hexVal (c : Char) : Option Nat :=
  let n := c.toNat
  if 48 ≤ n ∧ n ≤ 57 then some (n - 48)
  else if 97 ≤ n ∧ n ≤ 102 then some (n - 87)
  else if 65 ≤ n ∧ n ≤ 70 then some (n - 55)
  else none

def hex4 (s : Str) : Option (Nat × Str) :=
  match s with
  | a :: b :: c :: d :: rest =>
    match hexVal a, hexVal b, hexVal c, hexVal d with
    | some va, some vb, some vc, some vd => some (va * 4096 + vb * 256 + vc * 16 + vd, rest)
    | _, _, _, _ => none
  | _ => none

/-- Body of a JSON string, positioned just after the opening quote (strict
mode: raw control characters are rejected, the standard escapes and \uXXXX
with surrogate pairs are decoded; a lone surrogate is outside the model
since Lean chars are Unicode scalar values). -/
def parseStringBody : Nat → Str → Str → Option (Str × Str)
  | 0, _, _ => none
  | _ + 1, _, [] => none
  | fuel + 1, acc, c :: rest =>
    if c = dq then some (acc.reverse, rest)
    else if c = bslash then
      match rest with
      | [] => none
      | e :: rest2 =>
        if e = dq then parseStringBody fuel (dq :: acc) rest2
        else if e = bslash then parseStringBody fuel (bslash :: acc) rest2
        else if e = '/' then parseStringBody fuel ('/' :: acc) rest2
        else if e = 'b' then parseStringBody fuel (Char.ofNat 8 :: acc) rest2
        else if e = 'f' then parseStringBody fuel (Char.ofNat 12 :: acc) rest2
        else if e = 'n' then parseStringBody fuel ('\n' :: acc) rest2
        else if e = 'r' then parseStringBody fuel ('\r' :: acc) rest2
        else if e = 't' then parseStringBody fuel ('\t' :: acc) rest2
        else if e = 'u' then
          match hex4 rest2 with
          | none => none
          | some (code, rest3) =>
            if 55296 ≤ code ∧ code ≤ 56319 then
              match rest3 with
              | u1 :: u2 :: rest4 =>
                if u1 = bslash ∧ u2 = 'u' then
                  match hex4 rest4 with
                  | some (low, rest5) =>
                    if 56320 ≤ low ∧ low ≤ 57343 then
                      parseStringBody fuel
                        (Char.ofNat (65536 + (code - 55296) * 1024 + (low - 56320)) :: acc) rest5
                    else none
                  | none => none
                else none
              | _ => none
            else if 56320 ≤ code ∧ code ≤ 57343 then none
            else parseStringBody fuel (Char.ofNat code :: acc) rest3
        else none
    else if c.toNat < 32 then none
    else parseStringBody fuel (c :: acc) rest

def takeDigits (s : Str) : Str × Str :=
  (s.takeWhile Char.isDigit, s.dropWhile Char.isDigit)

/-- Optional exponent part of the Python number regex. -/
def numExp (lex : Str) (s : Str) : Option (Str × Str) :=
  match s with
  | c :: r =>
    if c = 'e' ∨ c = 'E' then
      match r with
      | c2 :: r2 =>
        if c2 = '+' ∨ c2 = '-' then
          match takeDigits r2 with
          | ([], _) => some (lex, s)
          | (ds, rest) => some (lex ++ c :: c2 :: ds, rest)
        else
          match takeDigits r with
          | ([], _) => some (lex, s)
          | (ds, rest) => some (lex ++ c :: ds, rest)
      | [] => some (lex, s)
    else some (lex, s)
  | [] => some (lex, [])

/-- Optional fraction part, then exponent. -/
def numFrac (lex : Str) (s : Str) : Option (Str × Str) :=
  match s with
  | c :: r =>
    if c = '.' then
      match takeDigits r with
      | ([], _) => numExp lex s
      | (ds, rest) => numExp (lex ++ '.' :: ds) rest
    else numExp lex s
  | [] => numExp lex []

/-- The NUMBER_RE of the Python json scanner:
-?(0|[1-9]digits)(.digits)?([eE][+-]?digits)? -/
def parseNumber (s : Str) : Option (Str × Str) :=
  let minusAndRest : Str × Str :=
    match s with
    | c :: r => if c = '-' then (['-'], r) else ([], s)
    | [] => ([], s)
  match minusAndRest.2 with
  | c :: r =>
    if c = '0' then numFrac (minusAndRest.1 ++ ['0']) r
    else if c.isDigit then
      match takeDigits minusAndRest.2 with
      | (ds, rest) => numFrac (minusAndRest.1 ++ ds) rest
    else none
  | [] => none

mutual

/-- scan_once of the Python json scanner (fuel-bounded; every recursive call
spends one unit of fuel and jsonLoads supplies more fuel than any input can
consume). -/
def parseValue : Nat → Str → Option (Json × Str)
  | 0, _ => none
  | fuel + 1, s =>
    let s1 := skipWs s
    match s1 with
    | [] => none
    | c :: rest =>
      if c = lbrace then parseMembersFirst fuel rest
      else if c = '[' then parseElemsFirst fuel rest
      else if c = dq then
        match parseStringBody (rest.length + 1) [] rest with
        | some (str, r) => some (Json.str str, r)
        | none => none
      else if "true".toList.isPrefixOf s1 then some (Json.bool true, s1.drop 4)
      else if "false".toList.isPrefixOf s1 then some (Json.bool false, s1.drop 5)
      else if "null".toList.isPrefixOf s1 then some (Json.null, s1.drop 4)
      else if "NaN".toList.isPrefixOf s1 then some (Json.num ("NaN".toList), s1.drop 3)
      else if "Infinity".toList.isPrefixOf s1 then some (Json.num ("Infinity".toList), s1.drop 8)
      else if "-Infinity".toList.isPrefixOf s1 then some (Json.num ("-Infinity".toList), s1.drop 9)
      else
        match parseNumber s1 with
        | some (lex, r) => some (Json.num lex, r)
        | none => none

/-- Object body just after the opening brace: empty object or first key. -/
def parseMembersFirst : Nat → Str → Option (Json × Str)
  | 0, _ => none
  | fuel + 1, s =>
    let s1 := skipWs s
    match s1 with
    | [] => none
    | c :: rest =>
      if c = rbrace then some (Json.obj [], rest)
      else if c = dq then parsePairRest fuel [] rest
      else none

/-- Members of an object, positioned just after an opening key quote. -/
def parsePairRest : Nat → List (Str × Json) → Str → Option (Json × Str)
  | 0, _, _ => none
  | fuel + 1, acc, s =>
    match parseStringBody (s.length + 1) [] s with
    | none => none
    | some (key, r1) =>
      match skipWs r1 with
      | ':' :: r3 =>
        match parseValue fuel r3 with
        | none => none
        | some (v, r4) =>
          match skipWs r4 with
          | c :: r6 =>
            if c = rbrace then some (Json.obj (acc ++ [(key, v)]), r6)
            else if c = ',' then
              match skipWs r6 with
              | c2 :: r8 => if c2 = dq then parsePairRest fuel (acc ++ [(key, v)]) r8 else none
              | [] => none
            else none
          | [] => none
      | _ => none

/-- Array body just after the opening bracket: empty array or first element. -/
def parseElemsFirst : Nat → Str → Option (Json × Str)
  | 0, _ => none
  | fuel + 1, s =>
    let s1 := skipWs s
    match s1 with
    | [] => none
    | c :: _ =>
      if c = ']' then some (Json.arr [], s1.drop 1)
      else parseElemsRest fuel [] s1

/-- Elements of an array, positioned at the start of a value. -/
def parseElemsRest : Nat → List Json → Str → Option (Json × Str)
  | 0, _, _ => none
  | fuel + 1, acc, s =>
    match parseValue fuel s with
    | none => none
    | some (v, r1) =>
      match skipWs r1 with
      | c :: r3 =>
        if c = ']' then some (Json.arr (acc ++ [v]), r3)
        else if c = ',' then parseElemsRest fuel (acc ++ [v]) r3
        else none
      | [] => none

end

/-- json.loads: decode one value, then only whitespace may remain. -/
def jsonLoads (s : Str) : Option Json :=
  match parseValue (2 * s.length + 2) s with
  | some (v, rest) => if skipWs rest = [] then some v else none
  | none => none

/- ===================== main.py: parse_response ===================== -/

/-- Index of the first occurrence of a character (str.find). -/
def findIdxCh (c : Char) : Str → Option Nat
  | [] => none
  | x :: xs => if x = c then some 0 else (findIdxCh c xs).map (· + 1)

/-- Index of the last occurrence of a character (str.rfind). -/
def rfindIdxCh (c : Char) (s : Str) : Option Nat :=
  (findIdxCh c s.reverse).map (fun i => s.length - 1 - i)

/-- The substring from the first opening brace to the last closing brace,
exactly as parse_response computes it from find/rfind, or none when the
source would skip the json.loads attempt. -/
def extractJsonText (s : Str) : Option Str :=
  match findIdxCh lbrace s, rfindIdxCh rbrace s with
  | some st, some en =>
    if st < en + 1 then some ((s.drop st).take (en + 1 - st)) else none
  | _, _ => none

/-- The empty actions dictionary parse_response falls back to. -/
def defaultActions : Json :=
  Json.obj [("file_actions".toList, Json.arr []), ("shell_actions".toList, Json.arr [])]

/-- Python dict lookup with a default (later duplicate keys win, as in
json.loads). -/
def lookupLast (kvs : List (Str × Json)) (key : Str) : Option Json :=
  match kvs with
  | [] => none
  | (k, v) :: rest =>
    match lookupLast rest key with
    | some r => some r
    | none => if k = key then some v else none

/-- dict.get(key, default) on a parsed JSON value. -/
def jGetD (j : Json) (key : Str) (dflt : Json) : Json :=
  match j with
  | Json.obj kvs =>
    match lookupLast kvs key with
    | some v => v
    | none => dflt
  | _ => dflt

/-- AutoCodeforge.parse_response, starting from the extracted response text
(the vendor-specific attribute access above this point only assembles that
text): locate the first opening and last closing brace, try json.loads on
the slice, and on any failure return the empty actions dictionary.  The
Lean function is total, mirroring that the source catches every exception
and never raises. -/
def parse_response (response_text : Str) : Json :=
  match extractJsonText response_text with
  | some jt =>
    match jsonLoads jt with
    | some v => v
    | none => defaultActions
  | none => defaultActions

/-- The exact payload named by the specification. -/
def payloadText : Str :=
  ("\x7b\"explanation\":\"x\",\"file_actions\":[],\"shell_actions\":[\"echo hi\"]\x7d").toList

/-- The decoding of payloadText. -/
def payloadJson : Json :=
  Json.obj [("explanation".toList, Json.str ("x".toList)),
            ("file_actions".toList, Json.arr []),
            ("shell_actions".toList, Json.arr [Json.str ("echo hi".toList)])]

/- ===================== result_analyzer.py ===================== -/

/-- The fixed error marker table of ResultAnalyzer._check_for_errors (every
regex in the source is a literal once unescaped). -/
def error_patterns : List Str :=
  ["ERROR:".toList,
   "Error:".toList,
   "Exception:".toList,
   "failed with exit code".toList,
   "Command failed".toList,
   "Traceback (most recent call last)".toList,
   "ModuleNotFoundError:".toList,
   "ImportError:".toList,
   "SyntaxError:".toList,
   "NameError:".toList,
   "TypeError:".toList,
   "ValueError:".toList]

/-- ResultAnalyzer._check_for_errors. -/
def check_for_errors (r : Str) : Bool :=
  error_patterns.any (fun p => containsSub p r)

/-- re.search of an IGNORECASE alternation of literals. -/
def matchesAnyCI (alts : List Str) (r : Str) : Bool :=
  alts.any (fun a => containsSub (lowerStr a) (lowerStr r))

/-- ResultAnalyzer._identify_success_patterns. -/
def identify_success_patterns (r : Str) : List Str :=
  (if containsSub ("successfully".toList) (lowerStr r) then ["success_keyword".toList] else [])
  ++ (if matchesAnyCI ["All tests passed".toList, "Tests passed".toList, "Test successful".toList] r
      then ["test_success".toList] else [])
  ++ (if matchesAnyCI ["Build successful".toList, "Built successfully".toList] r
      then ["build_success".toList] else [])
  ++ (if matchesAnyCI ["Server started".toList, "Running on".toList, "Listening on".toList] r
      then ["server_started".toList] else [])

/-- ResultAnalyzer._should_terminate (the success argument is unused in the
source too). -/
def should_terminate (r : Str) (success : Bool) : Bool :=
  if containsSub ("CRITICAL ERROR".toList) r then true
  else if matchesAnyCI ["Optimization complete".toList, "Goal achieved".toList,
                        "Success criteria met".toList] r then true
  else false

/-- One attempt of re.search for a pattern of shape
literal-prefix ([^excluded]+) optional-closing-char, anchored at the start
of s; returns the captured group. -/
def matchCapAt (pre : Str) (excl : Str) (close : Option Char) (s : Str) : Option Str :=
  if pre.isPrefixOf s then
    let rest := s.drop pre.length
    let cap := rest.takeWhile (fun c => ¬ excl.contains c)
    if cap = [] then none
    else
      match close with
      | none => some cap
      | some cl =>
        match rest.drop cap.length with
        | c :: _ => if c = cl then some cap else none
        | [] => none
  else none

/-- re.search: leftmost start position wins. -/
def searchCap (pre : Str) (excl : Str) (close : Option Char) : Str → Option Str
  | [] => none
  | c :: rest =>
    match matchCapAt pre excl close (c :: rest) with
    | some cap => some cap
    | none => searchCap pre excl close rest

/-- The ordered error table of ResultAnalyzer._determine_reason.  Note the
source writes the character classes as [^\\n] inside raw strings, so they
exclude a backslash and the letter n, not a newline. -/
def reasonTable : List (Str × Str × Option Char × Str) :=
  [("ModuleNotFoundError: No module named ".toList ++ [squote], [squote], some squote,
    "Missing module: ".toList),
   ("ImportError: ".toList, [bslash, 'n'], none, "Import error: ".toList),
   ("SyntaxError: ".toList, [bslash, 'n'], none, "Syntax error: ".toList),
   ("TypeError: ".toList, [bslash, 'n'], none, "Type error: ".toList),
   ("ValueError: ".toList, [bslash, 'n'], none, "Value error: ".toList)]

def firstReasonMatch (r : Str) : List (Str × Str × Option Char × Str) → Option Str
  | [] => none
  | (pre, excl, close, fmt) :: rest =>
    match searchCap pre excl close r with
    | some cap => some (fmt ++ cap)
    | none => firstReasonMatch r rest

/-- ResultAnalyzer._determine_reason. -/
def determine_reason (r : Str) (success terminate : Bool) : Str :=
  if terminate then
    if containsSub ("CRITICAL ERROR".toList) r then "Critical error occurred".toList
    else if success then "Success criteria met".toList
    else "Termination condition detected".toList
  else if success = false then
    match firstReasonMatch r reasonTable with
    | some reason => reason
    | none => "Execution failed with errors".toList
  else "Execution completed successfully".toList

/-- ResultAnalyzer._summarize_result. -/
def summarize_result (r : Str) : Str :=
  let lines := splitOnPred (fun c => c = '\n') (pyStrip r)
  let firstFew := lines.take 5
  let errLines := (lines.drop 5).filter
    (fun line => ["error".toList, "exception".toList, "failed".toList,
                  "traceback".toList].any (fun w => containsSub w line))
  let relevant := firstFew ++ errLines
  let relevant2 := if relevant.length > 10 then relevant.take 10 ++ ["...".toList] else relevant
  joinSep ("\n".toList) relevant2

/-- The analysis dictionary.  The empty-result early return carries only the
success, reason and terminate keys; the optional fields model the keys the
two dictionaries of the source do or do not contain. -/
structure Analysis where
  success : Bool
  has_error : Option Bool
  success_patterns : Option (List Str)
  terminate : Bool
  reason : Str
  summary : Option Str
deriving DecidableEq, Repr

/-- ResultAnalyzer.analyze. -/
def analyze (r : Str) : Analysis :=
  if r = [] then
    { success := false, has_error := none, success_patterns := none,
      terminate := false, reason := "Empty result".toList, summary := none }
  else
    let has_error := check_for_errors r
    let success_patterns := identify_success_patterns r
    let success := !has_error && decide (success_patterns.length > 0)
    let terminate := should_terminate r success
    { success := success, has_error := some has_error,
      success_patterns := some success_patterns, terminate := terminate,
      reason := determine_reason r success terminate,
      summary := some (summarize_result r) }

/- ===================== main.py: execute_file_actions ===================== -/

/-- One parsed file action: the action/path/content fields, with the empty
defaults dict.get supplies in the source. -/
structure FileAction where
  action : Str
  path : Str
  content : Str
deriving DecidableEq, Repr

/-- What the loop body of execute_file_actions logs for one action. -/
inductive FileLog where
  | created (path : Str) : FileLog
  | modified (path : Str) : FileLog
  | deleted (path : Str) : FileLog
  | skippedEmptyPath : FileLog
  | unknownAction (action : Str) : FileLog
  | failed (action path msg : Str) : FileLog
deriving DecidableEq, Repr

/-- The body of the execute_file_actions loop for one action: skip an empty
path, dispatch on the action kind, and catch any exception from the file
manager, leaving the filesystem untouched for that action. -/
def applyFileAction (base : List Str) (fs : FS) (a : FileAction) : FS × FileLog :=
  if a.path = [] then (fs, FileLog.skippedEmptyPath)
  else if a.action = "create".toList then
    match write_file base fs a.path a.content with
    | Except.ok fs2 => (fs2, FileLog.created a.path)
    | Except.error e => (fs, FileLog.failed a.action a.path e)
  else if a.action = "modify".toList then
    match write_file base fs a.path a.content with
    | Except.ok fs2 => (fs2, FileLog.modified a.path)
    | Except.error e => (fs, FileLog.failed a.action a.path e)
  else if a.action = "delete".toList then
    match delete_file base fs a.path with
    | Except.ok fs2 => (fs2, FileLog.deleted a.path)
    | Except.error e => (fs, FileLog.failed a.action a.path e)
  else (fs, FileLog.unknownAction a.action)

/-- AutoCodeforge.execute_file_actions: every action is processed in order;
nothing aborts the loop. -/
def execute_file_actions (base : List Str) (actions : List FileAction) (fs : FS) :
    FS × List FileLog :=
  match actions with
  | [] => (fs, [])
  | a :: rest =>
    ((execute_file_actions base rest (applyFileAction base fs a).1).1,
     (applyFileAction base fs a).2 :: (execute_file_actions base rest (applyFileAction base fs a).1).2)

/- ===================== main.py: execute_shell_actions ===================== -/

/-- Outcome of one call of PowerShellExecutor.execute: Except.ok is the
returned output string (failures come back as "ERROR: ..." text), and
Except.error is an exception escaping the call (possible in the source,
e.g. os.makedirs in the working-directory re-check sits outside its
try block). -/
abbrev ExecEff := Except Str Str

/-- The transcript block the loop of execute_shell_actions appends for the
i-th command. -/
def shellBlock (eff : ExecEff) (cmd : Str) : Str :=
  match eff with
  | Except.ok result =>
    "Command: ".toList ++ cmd ++ "\nResult:\n".toList ++ result ++ "\n".toList
  | Except.error e =>
    "Command: ".toList ++ cmd ++ "\nError: ".toList
      ++ ("Error executing command ".toList ++ [squote] ++ cmd ++ [squote] ++ ": ".toList ++ e)
      ++ "\n".toList

/-- The command loop of execute_shell_actions, accumulating all_results in
source order (the environment oracle env gives the i-th execution's
outcome). -/
def executeShellAux (env : Nat → ExecEff) : Nat → List Str → List Str → List Str
  | _, acc, [] => acc.reverse
  | i, acc, cmd :: rest => executeShellAux env (i + 1) (shellBlock (env i) cmd :: acc) rest

/-- Blocks of the shell transcript, one per command, indexed from i. -/
def enumBlocks (env : Nat → ExecEff) : Nat → List Str → List Str
  | _, [] => []
  | i, cmd :: rest => shellBlock (env i) cmd :: enumBlocks env (i + 1) rest

/-- AutoCodeforge.execute_shell_actions: first the preliminary
working-directory diagnostic (its output is only logged; an exception from
it propagates out of the function), then one block per shell action joined
with newlines. -/
def execute_shell_actions (pre : ExecEff) (env : Nat → ExecEff) (actions : List Str) :
    Except Str Str :=
  match pre with
  | Except.error e => Except.error e
  | Except.ok _ => Except.ok (joinSep ("\n".toList) (executeShellAux env 0 [] actions))

/- ===================== main.py: run_cycle ===================== -/

/-- One iteration of the cycle as recorded by the loop. -/
structure IterationRecord where
  idx : Nat
  result : Str
  analysis : Analysis
deriving DecidableEq, Repr

/-- The for-loop of AutoCodeforge.run_cycle.  The oracle gen abstracts
generate_code / parse_response / execute_file_actions /
execute_shell_actions for iteration i with the previous transcript as
current_result; the loop analyzes the transcript and breaks when the
analysis signals termination. -/
def runCycleAux (gen : Nat → Option Str → Str) : Nat → Nat → Option Str → List IterationRecord
  | 0, _, _ => []
  | remaining + 1, i, current =>
    let result := gen i current
    let analysis := analyze result
    ⟨i, result, analysis⟩ ::
      (if analysis.terminate then [] else runCycleAux gen remaining (i + 1) (some result))

/-- AutoCodeforge.run_cycle with iteration bound n. -/
def run_cycle (gen : Nat → Option Str → Str) (n : Nat) : List IterationRecord :=
  runCycleAux gen n 0 none

/- ===================== Concrete instances used by witnesses ===================== -/

/-- A workspace root for concrete runs. -/
def baseWs : List Str := ["ws".toList, "proj".toList]

/-- A generator stub that never produces a terminating transcript. -/
def genOk : Nat → Option Str → Str := fun _ _ => "ok".toList

/-- A generator stub that always produces an empty transcript. -/
def genEmpty : Nat → Option Str → Str := fun _ _ => []

/-- A sibling-named directory that escapes the root but passes the
string-prefix check of get_full_path. -/
def evilSibling : Str := "../projx/pwn".toList

/-- The workspace root used by the sandbox-escape exhibit. -/
def baseProj : List Str := ["home".toList, "proj".toList]

/-- An absent path that resolves outside the root. -/
def evilAbsent : Str := "../../etc/passwd".toList

/-- A plain relative file name. -/
def relA : Str := "a.txt".toList

/-- Response text with no JSON braces at all. -/
def proseOnly : Str := "hello world".toList

/- ===================== Lemmas about the filesystem model ===================== -/

lemma fsErase_idem (fs : FS) (k : List Str) : fsErase (fsErase fs k) k = fsErase fs k := by
  unfold fsErase
  rw [List.filter_filter]
  simp

lemma fsSet_idem (fs : FS) (k : List Str) (v : Str) :
    fsSet (fsSet fs k v) k v = fsSet fs k v := by
  unfold fsSet
  congr 1
  have h1 : fsErase ((k, v) :: fsErase fs k) k = fsErase (fsErase fs k) k := by
    simp [fsErase]
  rw [h1, fsErase_idem]

/- ===================== Lemmas about the cycle engine ===================== -/

lemma runCycleAux_ne_nil (gen : Nat → Option Str → Str) (rem i : Nat) (cur : Option Str)
    (h : 0 < rem) : runCycleAux gen rem i cur ≠ [] := by
  cases rem with
  | zero => exact absurd h (by omega)
  | succ k => simp [runCycleAux]

lemma runCycleAux_len_of_no_terminate (gen : Nat → Option Str → Str) :
    ∀ rem i cur, (∀ rec ∈ runCycleAux gen rem i cur, rec.analysis.terminate = false) →
      (runCycleAux gen rem i cur).length = rem := by
  intro rem
  induction rem with
  | zero => intro i cur _; simp [runCycleAux]
  | succ k ih =>
    intro i cur h
    have hhead : (analyze (gen i cur)).terminate = false := by
      apply h ⟨i, gen i cur, analyze (gen i cur)⟩
      simp [runCycleAux]
    have hunf : runCycleAux gen (k + 1) i cur =
        ⟨i, gen i cur, analyze (gen i cur)⟩ :: runCycleAux gen k (i + 1) (some (gen i cur)) := by
      simp [runCycleAux, hhead]
    have htail : ∀ rec ∈ runCycleAux gen k (i + 1) (some (gen i cur)),
        rec.analysis.terminate = false := by
      intro rec hrec
      exact h rec (by rw [hunf]; exact List.mem_cons_of_mem _ hrec)
    rw [hunf, List.length_cons, ih (i + 1) (some (gen i cur)) htail]

lemma runCycleAux_terminate_last (gen : Nat → Option Str → Str) :
    ∀ rem i cur j rec, (runCycleAux gen rem i cur).get? j = some rec →
      rec.analysis.terminate = true → (runCycleAux gen rem i cur).length = j + 1 := by
  intro rem
  induction rem with
  | zero => intro i cur j rec h _; simp [runCycleAux] at h
  | succ k ih =>
    intro i cur j rec h ht
    by_cases hterm : (analyze (gen i cur)).terminate = true
    · have hunf : runCycleAux gen (k + 1) i cur = [⟨i, gen i cur, analyze (gen i cur)⟩] := by
        simp [runCycleAux, hterm]
      rw [hunf] at h ⊢
      cases j with
      | zero => simp
      | succ j2 => simp at h
    · have hunf : runCycleAux gen (k + 1) i cur =
          ⟨i, gen i cur, analyze (gen i cur)⟩ :: runCycleAux gen k (i + 1) (some (gen i cur)) := by
        simp [runCycleAux, hterm]
      rw [hunf] at h ⊢
      cases j with
      | zero =>
        have hrec : rec = ⟨i, gen i cur, analyze (gen i cur)⟩ := by
          have := h
          simp at this
          exact this.symm
        rw [hrec] at ht
        exact absurd ht hterm
      | succ j2 =>
        simp only [List.get?_cons_succ] at h
        rw [List.length_cons, ih (i + 1) (some (gen i cur)) j2 rec h ht]

lemma runCycleAux_continues (gen : Nat → Option Str → Str) :
    ∀ rem i cur j rec, (runCycleAux gen rem i cur).get? j = some rec →
      rec.analysis.terminate = false → j + 1 < rem →
      j + 1 < (runCycleAux gen rem i cur).length := by
  intro rem
  induction rem with
  | zero => intro i cur j rec _ _ hlt; omega
  | succ k ih =>
    intro i cur j rec h ht hlt
    by_cases hterm : (analyze (gen i cur)).terminate = true
    · have hunf : runCycleAux gen (k + 1) i cur = [⟨i, gen i cur, analyze (gen i cur)⟩] := by
        simp [runCycleAux, hterm]
      rw [hunf] at h
      cases j with
      | zero =>
        have hrec : rec = ⟨i, gen i cur, analyze (gen i cur)⟩ := by
          have := h
          simp at this
          exact this.symm
        rw [hrec] at ht
        rw [ht] at hterm
        exact absurd hterm (by decide)
      | succ j2 => simp at h
    · have hunf : runCycleAux gen (k + 1) i cur =
          ⟨i, gen i cur, analyze (gen i cur)⟩ :: runCycleAux gen k (i + 1) (some (gen i cur)) := by
        simp [runCycleAux, hterm]
      rw [hunf] at h ⊢
      rw [List.length_cons]
      cases j with
      | zero =>
        have hpos : 0 < (runCycleAux gen k (i + 1) (some (gen i cur))).length := by
          apply List.length_pos.mpr
          exact runCycleAux_ne_nil gen k (i + 1) (some (gen i cur)) (by omega)
        omega
      | succ j2 =>
        simp only [List.get?_cons_succ] at h
        have := ih (i + 1) (some (gen i cur)) j2 rec h ht (by omega)
        omega

lemma runCycleAux_analysis (gen : Nat → Option Str → Str) :
    ∀ rem i cur j rec, (runCycleAux gen rem i cur).get? j = some rec →
      rec.analysis = analyze rec.result := by
  intro rem
  induction rem with
  | zero => intro i cur j rec h; simp [runCycleAux] at h
  | succ k ih =>
    intro i cur j rec h
    by_cases hterm : (analyze (gen i cur)).terminate = true
    · have hunf : runCycleAux gen (k + 1) i cur = [⟨i, gen i cur, analyze (gen i cur)⟩] := by
        simp [runCycleAux, hterm]
      rw [hunf] at h
      cases j with
      | zero =>
        have hrec : rec = ⟨i, gen i cur, analyze (gen i cur)⟩ := by
          have := h
          simp at this
          exact this.symm
        rw [hrec]
      | succ j2 => simp at h
    · have hunf : runCycleAux gen (k + 1) i cur =
          ⟨i, gen i cur, analyze (gen i cur)⟩ :: runCycleAux gen k (i + 1) (some (gen i cur)) := by
        simp [runCycleAux, hterm]
      rw [hunf] at h
      cases j with
      | zero =>
        have hrec : rec = ⟨i, gen i cur, analyze (gen i cur)⟩ := by
          have := h
          simp at this
          exact this.symm
        rw [hrec]
      | succ j2 =>
        simp only [List.get?_cons_succ] at h
        exact ih (i + 1) (some (gen i cur)) j2 rec h

/- ===================== Lemmas about the classifier ===================== -/

lemma should_terminate_of_critical (r : Str) (s : Bool)
    (h : containsSub ("CRITICAL ERROR".toList) r = true) : should_terminate r s = true := by
  unfold should_terminate
  rw [h]
  simp

lemma determine_reason_of_critical (r : Str) (s : Bool)
    (h : containsSub ("CRITICAL ERROR".toList) r = true) :
    determine_reason r s true = "Critical error occurred".toList := by
  unfold determine_reason
  rw [h]
  simp

/- ===================== Claim theorems ===================== -/

/-- C3: for every transcript the classifier's success verdict holds exactly
when no marker of the fixed error table matches and at least one success
pattern matches; in particular a transcript containing the stack-trace
header has has_error = true and success = false even if a test-pass phrase
also appears. -/
theorem c3_success_iff (r : Str) :
    ((analyze r).success = true ↔
      (check_for_errors r = false ∧ identify_success_patterns r ≠ []))
    ∧ (containsSub ("Traceback (most recent call last)".toList) r = true →
        (analyze r).has_error = some true ∧ (analyze r).success = false) := by
  by_cases hr : r = []
  · subst hr
    refine ⟨⟨fun h => absurd h (by decide), ?_⟩, fun h => absurd h (by decide)⟩
    rintro ⟨_, h2⟩
    exact absurd (by decide : identify_success_patterns [] = []) h2
  · constructor
    · constructor
      · intro h
        simp only [analyze, if_neg hr, Bool.and_eq_true, Bool.not_eq_true',
          decide_eq_true_eq] at h
        exact ⟨h.1, List.length_pos.mp h.2⟩
      · rintro ⟨h1, h2⟩
        simp only [analyze, if_neg hr, Bool.and_eq_true, Bool.not_eq_true',
          decide_eq_true_eq]
        exact ⟨h1, List.length_pos.mpr h2⟩
    · intro h
      have hc : check_for_errors r = true := by
        unfold check_for_errors
        exact List.any_eq_true.mpr
          ⟨"Traceback (most recent call last)".toList, by decide, h⟩
      constructor
      · simp [analyze, hr, hc]
      · simp [analyze, hr, hc]

/-- Concrete transcript for C3: contains the stack-trace header and a
test-pass phrase. -/
def tbTranscript : Str :=
  ("Traceback (most recent call last)\n  boom\nAll tests passed").toList

/-- Witness for C3 at a concrete transcript. -/
theorem c3_success_iff_witness :
    (analyze tbTranscript).has_error = some true ∧ (analyze tbTranscript).success = false :=
  (c3_success_iff tbTranscript).2 (by decide)

/-- C4: any transcript containing "CRITICAL ERROR" is classified
terminate = true with reason "Critical error occurred", whatever else
appears in it. -/
theorem c4_critical_terminates (r : Str)
    (h : containsSub ("CRITICAL ERROR".toList) r = true) :
    (analyze r).terminate = true ∧ (analyze r).reason = "Critical error occurred".toList := by
  have hr : r ≠ [] := by
    intro he
    subst he
    exact absurd h (by decide)
  constructor
  · simp only [analyze, if_neg hr]
    exact should_terminate_of_critical r _ h
  · simp only [analyze, if_neg hr]
    rw [should_terminate_of_critical r _ h]
    exact determine_reason_of_critical r _ h

/-- Concrete transcript for C4: critical marker next to a success phrase. -/
def criticalTranscript : Str := ("CRITICAL ERROR: db down\nAll tests passed").toList

/-- Witness for C4 at a concrete transcript. -/
theorem c4_critical_terminates_witness :
    (analyze criticalTranscript).terminate = true
    ∧ (analyze criticalTranscript).reason = "Critical error occurred".toList :=
  c4_critical_terminates criticalTranscript (by decide)

/-- C5: with bound n ≥ 1, if no iteration's analysis signals termination the
engine performs exactly n iterations; and an iteration whose analysis
signals termination is the last one performed, whatever budget remains. -/
theorem c5_cycle_bound (gen : Nat → Option Str → Str) (n : Nat) (hn : 1 ≤ n) :
    ((∀ rec ∈ run_cycle gen n, rec.analysis.terminate = false) →
      (run_cycle gen n).length = n)
    ∧ (∀ j rec, (run_cycle gen n).get? j = some rec → rec.analysis.terminate = true →
        (run_cycle gen n).length = j + 1) :=
  ⟨fun hall => runCycleAux_len_of_no_terminate gen n 0 none hall,
   fun j rec hj ht => runCycleAux_terminate_last gen n 0 none j rec hj ht⟩

/-- Witness for C5: a never-terminating stub runs exactly 3 iterations. -/
theorem c5_cycle_bound_witness : (run_cycle genOk 3).length = 3 :=
  (c5_cycle_bound genOk 3 (by decide)).1 (by decide)

/-- C10: classifying the empty transcript returns success = false,
terminate = false, reason "Empty result" and no error/pattern fields (the
marker tables are not consulted), and the engine therefore always proceeds
to the next iteration while budget remains. -/
theorem c10_empty_transcript :
    analyze [] = ⟨false, none, none, false, "Empty result".toList, none⟩
    ∧ (∀ gen n j rec, (run_cycle gen n).get? j = some rec → rec.result = [] →
        j + 1 < n → j + 1 < (run_cycle gen n).length) := by
  constructor
  · rfl
  · intro gen n j rec hj hres hlt
    have ha : rec.analysis = analyze rec.result := runCycleAux_analysis gen n 0 none j rec hj
    have ht : rec.analysis.terminate = false := by rw [ha, hres]; rfl
    exact runCycleAux_continues gen n 0 none j rec hj ht hlt

/-- Witness for C10: an empty first transcript does not stop a 2-iteration
run. -/
theorem c10_empty_transcript_witness : 0 + 1 < (run_cycle genEmpty 2).length :=
  c10_empty_transcript.2 genEmpty 2 0 ⟨0, [], analyze []⟩ (by decide) (by decide) (by decide)

/-- C1 (sandbox check defeated): the source intends to reject every path
resolving outside the workspace root, but its string-prefix check has no
separator, so a sibling directory sharing the root as a string prefix
slips through: from root /home/proj the action ../projx/pwn is accepted
and written outside the root.  The claimed example ../../etc/passwd is
rejected as documented. -/
theorem c1_sandbox_escape :
    write_file baseProj [] evilSibling ("x".toList) =
      Except.ok [(normComps (baseProj ++ splitPath evilSibling), "x".toList)]
    ∧ isDescendant baseProj (normComps (baseProj ++ splitPath evilSibling)) = false
    ∧ get_full_path baseProj evilAbsent =
      Except.error ("Path traversal detected: ".toList ++ evilAbsent) :=
  ⟨rfl, by decide, rfl⟩

/-- C7: parse_response is total, and whenever brace extraction finds no
candidate slice or json.loads rejects the slice, the result is the empty
actions dictionary, so the iteration degrades to a no-op. -/
theorem c7_parse_total (s : Str)
    (h : extractJsonText s = none ∨
      ∃ jt, extractJsonText s = some jt ∧ jsonLoads jt = none) :
    parse_response s = defaultActions
    ∧ jGetD (parse_response s) ("file_actions".toList) (Json.arr []) = Json.arr []
    ∧ jGetD (parse_response s) ("shell_actions".toList) (Json.arr []) = Json.arr [] := by
  have hp : parse_response s = defaultActions := by
    cases h with
    | inl h0 =>
      unfold parse_response
      rw [h0]
    | inr h0 =>
      obtain ⟨jt, h1, h2⟩ := h0
      unfold parse_response
      rw [h1]
      simp only [h2]
  refine ⟨hp, ?_, ?_⟩ <;> rw [hp] <;> rfl

/-- Witness for C7: a response with no braces yields the empty actions. -/
theorem c7_parse_total_witness :
    parse_response proseOnly = defaultActions
    ∧ jGetD (parse_response proseOnly) ("file_actions".toList) (Json.arr []) = Json.arr []
    ∧ jGetD (parse_response proseOnly) ("shell_actions".toList) (Json.arr []) = Json.arr [] :=
  c7_parse_total proseOnly (Or.inl (by decide))

/-- C8: applying file actions never aborts: every action in the set is
processed (one log entry each), an empty path or an unknown kind is skipped
leaving the filesystem unchanged, and an action whose application fails
leaves the filesystem unchanged while the loop continues. -/
theorem c8_no_abort :
    (∀ base actions fs, (execute_file_actions base actions fs).2.length = actions.length)
    ∧ (∀ base fs a, a.path = [] →
        applyFileAction base fs a = (fs, FileLog.skippedEmptyPath))
    ∧ (∀ base fs a, a.path ≠ [] → a.action ≠ "create".toList →
        a.action ≠ "modify".toList → a.action ≠ "delete".toList →
        applyFileAction base fs a = (fs, FileLog.unknownAction a.action))
    ∧ (∀ base fs a act p e, (applyFileAction base fs a).2 = FileLog.failed act p e →
        (applyFileAction base fs a).1 = fs) := by
  refine ⟨?_, ?_, ?_, ?_⟩
  · intro base actions
    induction actions with
    | nil => intro fs; rfl
    | cons a rest ih =>
      intro fs
      simp only [execute_file_actions, List.length_cons]
      rw [ih ((applyFileAction base fs a).1)]
  · intro base fs a h
    unfold applyFileAction
    rw [if_pos h]
  · intro base fs a h1 h2 h3 h4
    unfold applyFileAction
    rw [if_neg h1, if_neg h2, if_neg h3, if_neg h4]
  · intro base fs a act p e h
    unfold applyFileAction at h ⊢
    by_cases h1 : a.path = []
    · rw [if_pos h1] at h
      simp at h
    · rw [if_neg h1] at h ⊢
      by_cases h2 : a.action = "create".toList
      · rw [if_pos h2] at h ⊢
        cases hw : write_file base fs a.path a.content with
        | ok fs2 => rw [hw] at h; simp at h
        | error e2 => rfl
      · rw [if_neg h2] at h ⊢
        by_cases h3 : a.action = "modify".toList
        · rw [if_pos h3] at h ⊢
          cases hw : write_file base fs a.path a.content with
          | ok fs2 => rw [hw] at h; simp at h
          | error e2 => rfl
        · rw [if_neg h3] at h ⊢
          by_cases h4 : a.action = "delete".toList
          · rw [if_pos h4] at h ⊢
            cases hw : delete_file base fs a.path with
            | ok fs2 => rw [hw] at h; simp at h
            | error e2 => rfl
          · rw [if_neg h4] at h
            simp at h

/-- Concrete action list for C8. -/
def actsW : List FileAction :=
  [⟨"create".toList, "a.txt".toList, "x".toList⟩, ⟨"weird".toList, "b".toList, []⟩]

/-- Witness for C8 at concrete actions. -/
theorem c8_no_abort_witness :
    (execute_file_actions baseWs actsW []).2.length = actsW.length
    ∧ applyFileAction baseWs [] ⟨"create".toList, [], []⟩ = ([], FileLog.skippedEmptyPath)
    ∧ applyFileAction baseWs [] ⟨"weird".toList, "b".toList, []⟩ =
      ([], FileLog.unknownAction ("weird".toList)) :=
  ⟨c8_no_abort.1 baseWs actsW [],
   c8_no_abort.2.1 baseWs [] ⟨"create".toList, [], []⟩ rfl,
   c8_no_abort.2.2.1 baseWs [] ⟨"weird".toList, "b".toList, []⟩
     (by decide) (by decide) (by decide) (by decide)⟩

/-- C9 counterexample: deleting an absent path is not error-free in general:
a traversal path that is absent raises ValueError from get_full_path before
the existence test is reached. -/
theorem c9_delete_counterexample :
    delete_file baseWs [] evilAbsent =
      Except.error ("Path traversal detected: ".toList ++ evilAbsent) := rfl

/-- C9 (amended): deleting an absent path whose resolution passes the root
check never errors and leaves the filesystem unchanged, and applying the
same Create twice yields the same final content as applying it once. -/
theorem c9_delete_idempotent (base : List Str) (fs : FS) (rel : Str) :
    (∀ full, get_full_path base rel = Except.ok full →
      fsGet fs (normComps full) = none → delete_file base fs rel = Except.ok fs)
    ∧ (∀ content, Except.bind (write_file base fs rel content)
        (fun fs2 => write_file base fs2 rel content) = write_file base fs rel content) := by
  constructor
  · intro full hok habs
    unfold delete_file
    rw [hok]
    simp [fsHas, habs]
  · intro content
    unfold write_file
    cases hg : get_full_path base rel with
    | error e => rfl
    | ok full =>
      show Except.ok (fsSet (fsSet fs (normComps full) content) (normComps full) content) =
        Except.ok (fsSet fs (normComps full) content)
      rw [fsSet_idem]

/-- Witness for C9 at a concrete in-root path. -/
theorem c9_delete_idempotent_witness :
    delete_file baseWs [] relA = Except.ok []
    ∧ Except.bind (write_file baseWs [] relA ("hi".toList))
        (fun fs2 => write_file baseWs fs2 relA ("hi".toList)) =
      write_file baseWs [] relA ("hi".toList) :=
  ⟨(c9_delete_idempotent baseWs [] relA).1 (baseWs ++ splitPath relA) rfl rfl,
   (c9_delete_idempotent baseWs [] relA).2 ("hi".toList)⟩

/- ===================== C6: shell transcript ===================== -/

lemma executeShellAux_eq (env : Nat → ExecEff) :
    ∀ cmds i acc, executeShellAux env i acc cmds = acc.reverse ++ enumBlocks env i cmds := by
  intro cmds
  induction cmds with
  | nil => intro i acc; simp [executeShellAux, enumBlocks]
  | cons c rest ih =>
    intro i acc
    simp only [executeShellAux, enumBlocks]
    rw [ih (i + 1) (shellBlock (env i) c :: acc)]
    simp

lemma enumBlocks_length (env : Nat → ExecEff) :
    ∀ cmds i, (enumBlocks env i cmds).length = cmds.length := by
  intro cmds
  induction cmds with
  | nil => intro i; rfl
  | cons c rest ih => intro i; simp [enumBlocks, ih (i + 1)]

lemma enumBlocks_get? (env : Nat → ExecEff) :
    ∀ cmds i j cmd, cmds.get? j = some cmd →
      (enumBlocks env i cmds).get? j = some (shellBlock (env (i + j)) cmd) := by
  intro cmds
  induction cmds with
  | nil => intro i j cmd h; simp at h
  | cons c rest ih =>
    intro i j cmd h
    cases j with
    | zero =>
      simp only [List.get?_cons_zero, Option.some.injEq] at h
      subst h
      simp [enumBlocks]
    | succ j2 =>
      simp only [List.get?_cons_succ] at h
      simp only [enumBlocks, List.get?_cons_succ]
      rw [ih (i + 1) j2 cmd h]
      have harith : i + 1 + j2 = i + (j2 + 1) := by omega
      rw [harith]

/-- A command execution that raises (as the source allows: os.makedirs in
the working-directory re-check of PowerShellExecutor.execute sits outside
its try block, and main.py catches the exception per command). -/
def env6 : Nat → ExecEff := fun _ => Except.error ("boom".toList)

def acts6 : List Str := ["echo hi".toList]

/-- The transcript produced for acts6 under env6. -/
def t6 : Str := shellBlock (Except.error ("boom".toList)) ("echo hi".toList)

/-- C6 counterexample: when a command's execution raises, its transcript
block is a Command/Error block, so the transcript does not contain one
Command/Result block per shell action as claimed. -/
theorem c6_counterexample :
    execute_shell_actions (Except.ok []) env6 acts6 = Except.ok t6
    ∧ containsSub ("Result:".toList) t6 = false := ⟨rfl, by decide⟩

/-- C6 (amended): the transcript is the newline-join of exactly one block
per shell action, in order — a Command/Result block when the execution
returns (failures return "ERROR:"-prefixed output and still get a Result
block), and a Command/Error block when it raises — no outcome halts the
remaining commands, and the preliminary working-directory diagnostic
contributes nothing to the transcript. -/
theorem c6_transcript_blocks (preOut : Str) (env : Nat → ExecEff) (actions : List Str) :
    execute_shell_actions (Except.ok preOut) env actions =
      Except.ok (joinSep ("\n".toList) (enumBlocks env 0 actions))
    ∧ (enumBlocks env 0 actions).length = actions.length
    ∧ (∀ j cmd, actions.get? j = some cmd →
        (enumBlocks env 0 actions).get? j = some (shellBlock (env j) cmd)) := by
  refine ⟨?_, enumBlocks_length env actions 0, ?_⟩
  · show Except.ok (joinSep ("\n".toList) (executeShellAux env 0 [] actions)) = _
    rw [executeShellAux_eq env actions 0 []]
    simp
  · intro j cmd h
    have hg := enumBlocks_get? env actions 0 j cmd h
    simpa using hg

/-- A mixed environment: the first command returns, the second raises. -/
def envW6 : Nat → ExecEff :=
  fun i => if i = 0 then Except.ok ("done\n".toList) else Except.error ("oops".toList)

def actsW6 : List Str := ["a".toList, "b".toList]

/-- Witness for C6 (amended) at a concrete mixed run. -/
theorem c6_transcript_blocks_witness :
    execute_shell_actions (Except.ok ("prelim".toList)) envW6 actsW6 =
      Except.ok (joinSep ("\n".toList) (enumBlocks envW6 0 actsW6))
    ∧ (enumBlocks envW6 0 actsW6).get? 1 = some (shellBlock (envW6 1) ("b".toList)) :=
  ⟨(c6_transcript_blocks ("prelim".toList) envW6 actsW6).1,
   (c6_transcript_blocks ("prelim".toList) envW6 actsW6).2.2 1 ("b".toList) (by decide)⟩

/- ===================== C2: payload extraction ===================== -/

lemma findIdxCh_append_of_not_mem (c : Char) (l1 l2 : Str) :
    c ∉ l1 → findIdxCh c (l1 ++ l2) = (findIdxCh c l2).map (· + l1.length) := by
  induction l1 with
  | nil =>
    intro _
    cases hf : findIdxCh c l2 <;> simp [hf]
  | cons a t ih =>
    intro h
    rw [List.mem_cons] at h
    push_neg at h
    obtain ⟨h1, h2⟩ := h
    simp only [List.cons_append, findIdxCh, List.append_eq]
    rw [if_neg (fun he => h1 he.symm)]
    rw [ih h2]
    cases hf : findIdxCh c l2 <;> simp [hf, Nat.add_assoc]

lemma extract_sandwich (pre post : Str) (h1 : lbrace ∉ pre) (h2 : rbrace ∉ post) :
    extractJsonText (pre ++ (payloadText ++ post)) = some payloadText := by
  have hp : payloadText = lbrace :: payloadText.tail := rfl
  have hfind : findIdxCh lbrace (pre ++ (payloadText ++ post)) = some pre.length := by
    rw [findIdxCh_append_of_not_mem lbrace pre (payloadText ++ post) h1]
    rw [hp, List.cons_append]
    simp [findIdxCh]
  have hq : payloadText.reverse = rbrace :: payloadText.reverse.tail := rfl
  have hlenrev : findIdxCh rbrace ((pre ++ (payloadText ++ post)).reverse) = some post.length := by
    have hrev : (pre ++ (payloadText ++ post)).reverse =
        post.reverse ++ (payloadText.reverse ++ pre.reverse) := by
      simp [List.reverse_append, List.append_assoc]
    rw [hrev]
    rw [findIdxCh_append_of_not_mem rbrace post.reverse _ (by simpa using h2)]
    rw [hq, List.cons_append]
    simp [findIdxCh]
  have hlen : (pre ++ (payloadText ++ post)).length =
      pre.length + (payloadText.length + post.length) := by simp
  have hL : 1 ≤ payloadText.length := by decide
  have hcond : pre.length < (pre ++ (payloadText ++ post)).length - 1 - post.length + 1 := by
    omega
  have hsub : (pre ++ (payloadText ++ post)).length - 1 - post.length + 1 - pre.length =
      payloadText.length := by
    omega
  simp only [extractJsonText, rfindIdxCh, hfind, hlenrev, Option.map_some']
  rw [if_pos hcond]
  congr 1
  rw [hsub, List.drop_left, List.take_left]

lemma jsonLoads_payload : jsonLoads payloadText = some payloadJson := rfl

/-- Prose with a stray opening brace before the payload. -/
def cexText : Str := ("Note \x7b ").toList ++ payloadText

/-- C2 counterexample: prose containing a brace of its own defeats the
first-brace/last-brace extraction — the slice no longer decodes, the parser
falls back to the empty actions, and the shell-action list is empty rather
than the one-element list the claim requires. -/
theorem c2_counterexample :
    jGetD (parse_response cexText) ("shell_actions".toList) (Json.arr []) = Json.arr []
    ∧ jGetD (parse_response cexText) ("shell_actions".toList) (Json.arr []) ≠
      Json.arr [Json.str ("echo hi".toList)] := by
  constructor
  · rfl
  · intro hcontra
    have h0 : jGetD (parse_response cexText) ("shell_actions".toList) (Json.arr []) =
        Json.arr [] := rfl
    rw [h0] at hcontra
    injection hcontra with harr
    exact List.noConfusion harr

/-- C2 (amended): for prose with no opening brace before the payload and no
closing brace after it, Parse recovers exactly the payload: one shell
action "echo hi" and an empty file-action list. -/
theorem c2_payload_parsed (pre post : Str) (h1 : lbrace ∉ pre) (h2 : rbrace ∉ post) :
    jGetD (parse_response (pre ++ payloadText ++ post)) ("shell_actions".toList)
      (Json.arr []) = Json.arr [Json.str ("echo hi".toList)]
    ∧ jGetD (parse_response (pre ++ payloadText ++ post)) ("file_actions".toList)
      (Json.arr []) = Json.arr [] := by
  have hx : parse_response (pre ++ payloadText ++ post) = payloadJson := by
    rw [List.append_assoc]
    unfold parse_response
    rw [extract_sandwich pre post h1 h2]
    rfl
  rw [hx]
  exact ⟨rfl, rfl⟩

def preProse : Str := "Sure, here is the plan: ".toList

def postProse : Str := " Enjoy!".toList

/-- Witness for C2 (amended) at concrete prose. -/
theorem c2_payload_parsed_witness :
    jGetD (parse_response (preProse ++ payloadText ++ postProse)) ("shell_actions".toList)
      (Json.arr []) = Json.arr [Json.str ("echo hi".toList)]
    ∧ jGetD (parse_response (preProse ++ payloadText ++ postProse)) ("file_actions".toList)
      (Json.arr []) = Json.arr [] :=
  c2_payload_parsed preProse postProse (by decide) (by decide)
